import Mathlib

/-!
Verification development for the pattern-API sketch (`src/v5.rs`).

Modelling conventions.
A haystack's underlying memory is a `List Nat` of byte values.  The source
manipulates raw pointers into that memory; we model a pointer as its byte
offset from the front of the buffer, so the haystack-bounds pair
`(begin, end)` of pointers becomes the offset pair `(0, length)`, and a
cursor is a `Nat` offset.  Pointer subtraction `end - start` becomes `Nat`
subtraction on offsets.  Machine integers (`usize`) are modelled as `Nat`;
where the source can underflow a `usize` (a debug-build panic in Rust) we
model the subtraction as a checked operation returning `Option`.

The searcher loops in the source (`next_match` / `next_reject`) run
`while start != end`, advancing `start` by one element each iteration.  On
every state reachable from `into_searcher` the invariant `start ≤ end`
holds, so the loop performs at most `end - start` probes; the Lean
recursion is on that count, with count `0` exactly when `start = end`.
The consumer loops (`match_indices`, `split`, repeated `next_match`
driving) advance the searcher's `start` strictly on every iteration, so
`length + 1` steps always suffice; the drivers recurse on that bound.
-/

/-- Reading the byte a cursor points at (`*p` in the source); out-of-range
reads never happen on the states the theorems talk about. -/
def byteAt (mem : List Nat) (i : Nat) : Nat := (mem.get? i).getD 0

/-- Debug-mode `usize` subtraction: Rust panics on underflow in debug
builds, modelled as `none`. -/
def checkedSub (x y : Nat) : Option Nat := if y ≤ x then some (x - y) else none

namespace string

/-- Models `<&str as SearchPtrs>::offset_from_start` (v5.rs:59-62):
`begin as usize - haystack.0 as usize`, on a bounds pair `hsb = (front, back)`. -/
def offset_from_start (hsb : Nat × Nat) (b : Nat) : Nat := b - hsb.1

/-- Models `<&str as SearchPtrs>::range_to_self` (v5.rs:64-71):
`from_raw_parts(start, end - start)`, i.e. the `end - start` elements of the
underlying memory beginning at offset `start`. -/
def range_to_self (mem : List Nat) (start stop : Nat) : List Nat :=
  (mem.drop start).take (stop - start)

/-- Models `<&str as SearchPtrs>::cursor_at_front` (v5.rs:72-74): `hs.0`. -/
def cursor_at_front (hsb : Nat × Nat) : Nat := hsb.1

/-- Models `<&str as SearchPtrs>::cursor_at_back` (v5.rs:75-77): `hs.1`. -/
def cursor_at_back (hsb : Nat × Nat) : Nat := hsb.2

/-- Models `string::AsciiSearcher` (v5.rs:82-88).  The `haystack` field
`(begin, end)` of pointers is recoverable as `(0, hs.length)` since offsets
are pointer-minus-begin; `stop` is the field named `end` in the source
(`end` is reserved in Lean). -/
structure AsciiSearcher where
  hs : List Nat
  start : Nat
  stop : Nat
  ascii : Nat
deriving DecidableEq, Repr

/-- Models `Searcher::haystack` for `string::AsciiSearcher` (v5.rs:91-93):
the bounds pair captured at construction. -/
def AsciiSearcher.haystack (s : AsciiSearcher) : Nat × Nat := (0, s.hs.length)

/-- The scan loop of `string::AsciiSearcher::next_match` (v5.rs:95-107):
take the byte at `start`, advance `start`, return the one-element range at
the first byte equal to `ascii`.  `fuel` is the remaining iteration count
`end - start` (see the file header); `fuel = 0` is the `start = end` exit. -/
def next_match_loop (mem : List Nat) (ascii : Nat) : Nat → Nat → Option (Nat × Nat)
  | _, 0 => none
  | start, fuel + 1 =>
    if byteAt mem start = ascii then some (start, start + 1)
    else next_match_loop mem ascii (start + 1) fuel

/-- The scan loop of `string::AsciiSearcher::next_reject` (v5.rs:109-121):
identical to `next_match_loop` with the comparison inverted. -/
def next_reject_loop (mem : List Nat) (ascii : Nat) : Nat → Nat → Option (Nat × Nat)
  | _, 0 => none
  | start, fuel + 1 =>
    if byteAt mem start ≠ ascii then some (start, start + 1)
    else next_reject_loop mem ascii (start + 1) fuel

/-- Models `string::AsciiSearcher::next_match` (v5.rs:95-107).  The source
mutates `self.start`; we return the updated searcher alongside the result.
When the loop exits without a match, `start` has been advanced to `end`. -/
def AsciiSearcher.next_match (s : AsciiSearcher) : Option (Nat × Nat) × AsciiSearcher :=
  match next_match_loop s.hs s.ascii s.start (s.stop - s.start) with
  | some (b, e) => (some (b, e), { s with start := e })
  | none => (none, { s with start := s.stop })

/-- Models `string::AsciiSearcher::next_reject` (v5.rs:109-121). -/
def AsciiSearcher.next_reject (s : AsciiSearcher) : Option (Nat × Nat) × AsciiSearcher :=
  match next_reject_loop s.hs s.ascii s.start (s.stop - s.start) with
  | some (b, e) => (some (b, e), { s with start := e })
  | none => (none, { s with start := s.stop })

/-- Models `Ascii::into_searcher` for `&str` (v5.rs:127-139): the bounds
are `(begin, end) = (0, hs.length)` and the scan window starts as the whole
haystack. -/
def into_searcher (ascii : Nat) (hs : List Nat) : AsciiSearcher :=
  { hs := hs, start := 0, stop := hs.length, ascii := ascii }

/-- Models `Ascii::is_prefix_of` for `&str` (v5.rs:141-146):
`haystack.as_bytes().get(0).map(|&b| b == self.0).unwrap_or(false)`. -/
def is_prefix_of (ascii : Nat) (hs : List Nat) : Bool :=
  ((hs.get? 0).map (fun b => b == ascii)).getD false

/-- Models `Ascii::is_suffix_of` for `&str` (v5.rs:148-154):
`haystack.as_bytes().get(haystack.len() - 1).map(|&b| b == self.0).unwrap_or(false)`.
`haystack.len() - 1` is a `usize` subtraction that underflows when the
haystack is empty (a panic in debug builds), modelled via `checkedSub`. -/
def is_suffix_of (ascii : Nat) (hs : List Nat) : Option Bool :=
  match checkedSub hs.length 1 with
  | none => none
  | some i => some (((hs.get? i).map (fun b => b == ascii)).getD false)

/-- Models the `Pattern::is_contained_in` default body (v5.rs:9-11),
instantiated at the `&str` haystack:
`self.into_searcher(haystack).next_match().is_some()`. -/
def is_contained_in (ascii : Nat) (hs : List Nat) : Bool :=
  ((into_searcher ascii hs).next_match).1.isSome

/-- The sequence of ranges produced by repeatedly calling `next_match` on
one searcher until it returns `None` (the drive pattern of the consumers
in v5.rs:279 and the ordering guarantee of the spec). -/
def match_ranges_loop : Nat → AsciiSearcher → List (Nat × Nat)
  | 0, _ => []
  | fuel + 1, s =>
    match s.next_match with
    | (some r, s') => r :: match_ranges_loop fuel s'
    | (none, _) => []

/-- All ranges emitted by a fresh forward searcher driven by `next_match`. -/
def match_ranges (hs : List Nat) (ascii : Nat) : List (Nat × Nat) :=
  match_ranges_loop (hs.length + 1) (into_searcher ascii hs)

/-- The sequence of ranges produced by repeatedly calling `next_reject` on
one searcher until it returns `None`. -/
def reject_ranges_loop : Nat → AsciiSearcher → List (Nat × Nat)
  | 0, _ => []
  | fuel + 1, s =>
    match s.next_reject with
    | (some r, s') => r :: reject_ranges_loop fuel s'
    | (none, _) => []

/-- All ranges emitted by a fresh searcher driven by `next_reject`. -/
def reject_ranges (hs : List Nat) (ascii : Nat) : List (Nat × Nat) :=
  reject_ranges_loop (hs.length + 1) (into_searcher ascii hs)

end string

namespace slice

/-- Models `<&mut [u8] as SearchPtrs>::offset_from_start` (v5.rs:166-169). -/
def offset_from_start (hsb : Nat × Nat) (b : Nat) : Nat := b - hsb.1

/-- Models `<&mut [u8] as SearchPtrs>::range_to_self` (v5.rs:171-176):
`from_raw_parts_mut(start, end - start)`. -/
def range_to_self (mem : List Nat) (start stop : Nat) : List Nat :=
  (mem.drop start).take (stop - start)

/-- Models `<&mut [u8] as SearchPtrs>::cursor_at_front` (v5.rs:177-179). -/
def cursor_at_front (hsb : Nat × Nat) : Nat := hsb.1

/-- Models `<&mut [u8] as SearchPtrs>::cursor_at_back` (v5.rs:180-182). -/
def cursor_at_back (hsb : Nat × Nat) : Nat := hsb.2

/-- Models `slice::AsciiSearcher` (v5.rs:187-193); same conventions as the
string-side searcher. -/
structure AsciiSearcher where
  hs : List Nat
  start : Nat
  stop : Nat
  ascii : Nat
deriving DecidableEq, Repr

/-- Models `Searcher::haystack` for `slice::AsciiSearcher` (v5.rs:196-198). -/
def AsciiSearcher.haystack (s : AsciiSearcher) : Nat × Nat := (0, s.hs.length)

/-- The scan loop of `slice::AsciiSearcher::next_match` (v5.rs:200-212). -/
def next_match_loop (mem : List Nat) (ascii : Nat) : Nat → Nat → Option (Nat × Nat)
  | _, 0 => none
  | start, fuel + 1 =>
    if byteAt mem start = ascii then some (start, start + 1)
    else next_match_loop mem ascii (start + 1) fuel

/-- The scan loop of `slice::AsciiSearcher::next_reject` (v5.rs:214-226). -/
def next_reject_loop (mem : List Nat) (ascii : Nat) : Nat → Nat → Option (Nat × Nat)
  | _, 0 => none
  | start, fuel + 1 =>
    if byteAt mem start ≠ ascii then some (start, start + 1)
    else next_reject_loop mem ascii (start + 1) fuel

/-- Models `slice::AsciiSearcher::next_match` (v5.rs:200-212). -/
def AsciiSearcher.next_match (s : AsciiSearcher) : Option (Nat × Nat) × AsciiSearcher :=
  match next_match_loop s.hs s.ascii s.start (s.stop - s.start) with
  | some (b, e) => (some (b, e), { s with start := e })
  | none => (none, { s with start := s.stop })

/-- Models `slice::AsciiSearcher::next_reject` (v5.rs:214-226). -/
def AsciiSearcher.next_reject (s : AsciiSearcher) : Option (Nat × Nat) × AsciiSearcher :=
  match next_reject_loop s.hs s.ascii s.start (s.stop - s.start) with
  | some (b, e) => (some (b, e), { s with start := e })
  | none => (none, { s with start := s.stop })

/-- Models `Ascii::into_searcher` for `&mut [u8]` (v5.rs:232-245). -/
def into_searcher (ascii : Nat) (hs : List Nat) : AsciiSearcher :=
  { hs := hs, start := 0, stop := hs.length, ascii := ascii }

/-- Models `Ascii::is_prefix_of` for `&mut [u8]` (v5.rs:247-252). -/
def is_prefix_of (ascii : Nat) (hs : List Nat) : Bool :=
  ((hs.get? 0).map (fun b => b == ascii)).getD false

/-- Models `Ascii::is_suffix_of` for `&mut [u8]` (v5.rs:254-260); the same
`haystack.len() - 1` underflow as on the string side. -/
def is_suffix_of (ascii : Nat) (hs : List Nat) : Option Bool :=
  match checkedSub hs.length 1 with
  | none => none
  | some i => some (((hs.get? i).map (fun b => b == ascii)).getD false)

/-- Ranges from repeatedly calling `next_match` on one slice searcher. -/
def match_ranges_loop : Nat → AsciiSearcher → List (Nat × Nat)
  | 0, _ => []
  | fuel + 1, s =>
    match s.next_match with
    | (some r, s') => r :: match_ranges_loop fuel s'
    | (none, _) => []

/-- All ranges emitted by a fresh slice searcher driven by `next_match`. -/
def match_ranges (hs : List Nat) (ascii : Nat) : List (Nat × Nat) :=
  match_ranges_loop (hs.length + 1) (into_searcher ascii hs)

/-- Ranges from repeatedly calling `next_reject` on one slice searcher. -/
def reject_ranges_loop : Nat → AsciiSearcher → List (Nat × Nat)
  | 0, _ => []
  | fuel + 1, s =>
    match s.next_reject with
    | (some r, s') => r :: reject_ranges_loop fuel s'
    | (none, _) => []

/-- All ranges emitted by a fresh slice searcher driven by `next_reject`. -/
def reject_ranges (hs : List Nat) (ascii : Nat) : List (Nat × Nat) :=
  reject_ranges_loop (hs.length + 1) (into_searcher ascii hs)

end slice

namespace api_consumer

open string

/-- The `while let` loop of `api_consumer::match_indices` (v5.rs:272-290):
each match range `(begin, end)` is turned into
`(offset_from_start(haystack, begin), range_to_self(haystack, begin, end))`,
where `haystack` is the bounds value `searcher.haystack()`. -/
def match_indices_loop : Nat → AsciiSearcher → List (Nat × List Nat)
  | 0, _ => []
  | fuel + 1, s =>
    match s.next_match with
    | (some (b, e), s') =>
      (offset_from_start s'.haystack b, range_to_self s'.hs b e) ::
        match_indices_loop fuel s'
    | (none, _) => []

/-- Models `api_consumer::match_indices` (v5.rs:272-290), instantiated (as
in the crate's own tests) at the single-byte pattern; the haystack is given
by its byte contents. -/
def match_indices (hs : List Nat) (ascii : Nat) : List (Nat × List Nat) :=
  match_indices_loop (hs.length + 1) (into_searcher ascii hs)

/-- The `while let` loop of `api_consumer::split` (v5.rs:326-334) together
with the trailing push (v5.rs:336-342).  `lastEnd` models the `last_end`
variable; the source initializes it to `Some(cursor_at_front)` and only
ever stores `Some(end)`, but we keep the `Option` of the source. -/
def split_loop : Nat → AsciiSearcher → Option Nat → List (List Nat)
  | 0, _, _ => []
  | fuel + 1, s, lastEnd =>
    match s.next_match with
    | (some (b, e), s') =>
      (match lastEnd with
       | some le => [range_to_self s.hs le b]
       | none => []) ++ split_loop fuel s' (some e)
    | (none, _) =>
      match lastEnd with
      | some le => [range_to_self s.hs le (cursor_at_back s.haystack)]
      | none => []

/-- Models `api_consumer::split` (v5.rs:313-345), instantiated at the
single-byte pattern over the string haystack. -/
def split (hs : List Nat) (ascii : Nat) : List (List Nat) :=
  split_loop (hs.length + 1) (into_searcher ascii hs)
    (some (cursor_at_front (into_searcher ascii hs).haystack))

end api_consumer

/-- Alternate the elements of two lists, starting with the first; used to
state the round-trip law (split views interleaved with matched views). -/
def interleave : List (List Nat) → List (List Nat) → List (List Nat)
  | [], ys => ys
  | x :: xs, [] => x :: xs
  | x :: xs, y :: ys => x :: y :: interleave xs ys

/-- The bytes of `"banana"`. -/
def bananaBytes : List Nat := [98, 97, 110, 97, 110, 97]

/-! Basic facts about the string-side scan loops. -/

namespace string

theorem next_match_loop_some {mem : List Nat} {a : Nat} :
    ∀ {fuel start b e}, next_match_loop mem a start fuel = some (b, e) →
      e = b + 1 ∧ start ≤ b ∧ b < start + fuel ∧ byteAt mem b = a ∧
        ∀ j, start ≤ j → j < b → byteAt mem j ≠ a := by
  intro fuel
  induction fuel with
  | zero => intro start b e h; simp [next_match_loop] at h
  | succ n ih =>
    intro start b e h
    by_cases hb : byteAt mem start = a
    · simp [next_match_loop, hb] at h
      obtain ⟨rfl, rfl⟩ := h
      exact ⟨rfl, Nat.le_refl _, by omega, hb, fun j h1 h2 => by omega⟩
    · simp [next_match_loop, hb] at h
      obtain ⟨h1, h2, h3, h4, h5⟩ := ih h
      refine ⟨h1, by omega, by omega, h4, ?_⟩
      intro j hj1 hj2
      rcases Nat.lt_or_ge j (start + 1) with hj | hj
      · have : j = start := by omega
        simpa [this] using hb
      · exact h5 j hj hj2

theorem next_match_loop_none {mem : List Nat} {a : Nat} :
    ∀ {fuel start}, next_match_loop mem a start fuel = none →
      ∀ j, start ≤ j → j < start + fuel → byteAt mem j ≠ a := by
  intro fuel
  induction fuel with
  | zero => intro start _ j h1 h2; omega
  | succ n ih =>
    intro start h j h1 h2
    by_cases hb : byteAt mem start = a
    · simp [next_match_loop, hb] at h
    · simp [next_match_loop, hb] at h
      rcases Nat.lt_or_ge j (start + 1) with hj | hj
      · have : j = start := by omega
        simpa [this] using hb
      · exact ih h j hj (by omega)

theorem next_reject_loop_some {mem : List Nat} {a : Nat} :
    ∀ {fuel start b e}, next_reject_loop mem a start fuel = some (b, e) →
      e = b + 1 ∧ start ≤ b ∧ b < start + fuel ∧ byteAt mem b ≠ a ∧
        ∀ j, start ≤ j → j < b → byteAt mem j = a := by
  intro fuel
  induction fuel with
  | zero => intro start b e h; simp [next_reject_loop] at h
  | succ n ih =>
    intro start b e h
    by_cases hb : byteAt mem start = a
    · simp [next_reject_loop, hb] at h
      obtain ⟨h1, h2, h3, h4, h5⟩ := ih h
      refine ⟨h1, by omega, by omega, h4, ?_⟩
      intro j hj1 hj2
      rcases Nat.lt_or_ge j (start + 1) with hj | hj
      · have : j = start := by omega
        simpa [this] using hb
      · exact h5 j hj hj2
    · simp [next_reject_loop, hb] at h
      obtain ⟨rfl, rfl⟩ := h
      exact ⟨rfl, Nat.le_refl _, by omega, hb, fun j h1 h2 => by omega⟩

theorem next_reject_loop_none {mem : List Nat} {a : Nat} :
    ∀ {fuel start}, next_reject_loop mem a start fuel = none →
      ∀ j, start ≤ j → j < start + fuel → byteAt mem j = a := by
  intro fuel
  induction fuel with
  | zero => intro start _ j h1 h2; omega
  | succ n ih =>
    intro start h j h1 h2
    by_cases hb : byteAt mem start = a
    · simp [next_reject_loop, hb] at h
      rcases Nat.lt_or_ge j (start + 1) with hj | hj
      · have : j = start := by omega
        simpa [this] using hb
      · exact ih h j hj (by omega)
    · simp [next_reject_loop, hb] at h

theorem next_match_eq (hs : List Nat) (st sp a : Nat) :
    (AsciiSearcher.mk hs st sp a).next_match =
      match next_match_loop hs a st (sp - st) with
      | some (b, e) => (some (b, e), AsciiSearcher.mk hs e sp a)
      | none => (none, AsciiSearcher.mk hs sp sp a) := rfl

theorem next_reject_eq (hs : List Nat) (st sp a : Nat) :
    (AsciiSearcher.mk hs st sp a).next_reject =
      match next_reject_loop hs a st (sp - st) with
      | some (b, e) => (some (b, e), AsciiSearcher.mk hs e sp a)
      | none => (none, AsciiSearcher.mk hs sp sp a) := rfl

theorem next_match_some {s : AsciiSearcher} {b e : Nat} {s' : AsciiSearcher}
    (h : s.next_match = (some (b, e), s')) :
    e = b + 1 ∧ s.start ≤ b ∧ b < s.stop ∧ byteAt s.hs b = s.ascii ∧
      (∀ j, s.start ≤ j → j < b → byteAt s.hs j ≠ s.ascii) ∧
      s' = { s with start := e } := by
  unfold AsciiSearcher.next_match at h
  cases hl : next_match_loop s.hs s.ascii s.start (s.stop - s.start) with
  | none => rw [hl] at h; cases h
  | some r =>
    obtain ⟨b0, e0⟩ := r
    rw [hl] at h
    obtain ⟨h1, h2⟩ := Prod.mk.injEq .. ▸ h
    obtain ⟨rfl, rfl⟩ : b0 = b ∧ e0 = e := by
      constructor <;> [exact congrArg (fun o => (o.getD (0, 0)).1) h1;
        exact congrArg (fun o => (o.getD (0, 0)).2) h1]
    obtain ⟨g1, g2, g3, g4, g5⟩ := next_match_loop_some hl
    exact ⟨g1, g2, by omega, g4, g5, h2.symm⟩

theorem next_match_none {s : AsciiSearcher} {s' : AsciiSearcher}
    (h : s.next_match = (none, s')) :
    (∀ j, s.start ≤ j → j < s.stop → byteAt s.hs j ≠ s.ascii) ∧
      s' = { s with start := s.stop } := by
  unfold AsciiSearcher.next_match at h
  cases hl : next_match_loop s.hs s.ascii s.start (s.stop - s.start) with
  | some r => obtain ⟨b0, e0⟩ := r; rw [hl] at h; cases h
  | none =>
    rw [hl] at h
    refine ⟨fun j h1 h2 => next_match_loop_none hl j h1 (by omega), ?_⟩
    exact (Prod.mk.injEq .. ▸ h).2.symm

theorem next_reject_some {s : AsciiSearcher} {b e : Nat} {s' : AsciiSearcher}
    (h : s.next_reject = (some (b, e), s')) :
    e = b + 1 ∧ s.start ≤ b ∧ b < s.stop ∧ byteAt s.hs b ≠ s.ascii ∧
      (∀ j, s.start ≤ j → j < b → byteAt s.hs j = s.ascii) ∧
      s' = { s with start := e } := by
  unfold AsciiSearcher.next_reject at h
  cases hl : next_reject_loop s.hs s.ascii s.start (s.stop - s.start) with
  | none => rw [hl] at h; cases h
  | some r =>
    obtain ⟨b0, e0⟩ := r
    rw [hl] at h
    obtain ⟨h1, h2⟩ := Prod.mk.injEq .. ▸ h
    obtain ⟨rfl, rfl⟩ : b0 = b ∧ e0 = e := by
      constructor <;> [exact congrArg (fun o => (o.getD (0, 0)).1) h1;
        exact congrArg (fun o => (o.getD (0, 0)).2) h1]
    obtain ⟨g1, g2, g3, g4, g5⟩ := next_reject_loop_some hl
    exact ⟨g1, g2, by omega, g4, g5, h2.symm⟩

theorem next_reject_none {s : AsciiSearcher} {s' : AsciiSearcher}
    (h : s.next_reject = (none, s')) :
    (∀ j, s.start ≤ j → j < s.stop → byteAt s.hs j = s.ascii) ∧
      s' = { s with start := s.stop } := by
  unfold AsciiSearcher.next_reject at h
  cases hl : next_reject_loop s.hs s.ascii s.start (s.stop - s.start) with
  | some r => obtain ⟨b0, e0⟩ := r; rw [hl] at h; cases h
  | none =>
    rw [hl] at h
    refine ⟨fun j h1 h2 => next_reject_loop_none hl j h1 (by omega), ?_⟩
    exact (Prod.mk.injEq .. ▸ h).2.symm

end string

/-! Facts about materialized ranges. -/

namespace string

theorem range_to_self_full (hs : List Nat) : range_to_self hs 0 hs.length = hs := by
  simp [range_to_self]

theorem range_to_self_refl (hs : List Nat) (i : Nat) : range_to_self hs i i = [] := by
  simp [range_to_self]

theorem range_to_self_append (hs : List Nat) {i j k : Nat} (h1 : i ≤ j) (h2 : j ≤ k) :
    range_to_self hs i j ++ range_to_self hs j k = range_to_self hs i k := by
  unfold range_to_self
  have hk : k - i = (j - i) + (k - j) := by omega
  have hj : i + (j - i) = j := by omega
  rw [hk, List.take_add, List.drop_drop, hj]

theorem range_to_self_singleton (hs : List Nat) {b : Nat} (h : b < hs.length) :
    range_to_self hs b (b + 1) = [byteAt hs b] := by
  unfold range_to_self byteAt
  have h1 : b + 1 - b = 1 := by omega
  rw [h1, List.drop_eq_getElem_cons h, List.take_succ_cons, List.take_zero]
  rw [List.get?_eq_get h]
  simp

end string

/-! Step equations for the consumer drive loops. -/

namespace api_consumer

open string

theorem match_indices_loop_succ_some {fuel : Nat} {s : AsciiSearcher} {b e : Nat}
    {s' : AsciiSearcher} (h : s.next_match = (some (b, e), s')) :
    match_indices_loop (fuel + 1) s =
      (offset_from_start s'.haystack b, range_to_self s'.hs b e) ::
        match_indices_loop fuel s' := by
  simp only [match_indices_loop]
  rw [h]

theorem match_indices_loop_succ_none {fuel : Nat} {s : AsciiSearcher}
    {s' : AsciiSearcher} (h : s.next_match = (none, s')) :
    match_indices_loop (fuel + 1) s = [] := by
  simp only [match_indices_loop]
  rw [h]

theorem split_loop_succ_some {fuel : Nat} {s : AsciiSearcher} {b e : Nat}
    {s' : AsciiSearcher} {le : Nat} (h : s.next_match = (some (b, e), s')) :
    split_loop (fuel + 1) s (some le) =
      range_to_self s.hs le b :: split_loop fuel s' (some e) := by
  simp only [split_loop]
  rw [h]
  rfl

theorem split_loop_succ_none {fuel : Nat} {s : AsciiSearcher}
    {s' : AsciiSearcher} {le : Nat} (h : s.next_match = (none, s')) :
    split_loop (fuel + 1) s (some le) =
      [range_to_self s.hs le (cursor_at_back s.haystack)] := by
  simp only [split_loop]
  rw [h]

end api_consumer

namespace string

theorem match_ranges_loop_succ_some {fuel : Nat} {s : AsciiSearcher} {r : Nat × Nat}
    {s' : AsciiSearcher} (h : s.next_match = (some r, s')) :
    match_ranges_loop (fuel + 1) s = r :: match_ranges_loop fuel s' := by
  simp only [match_ranges_loop]
  rw [h]

theorem match_ranges_loop_succ_none {fuel : Nat} {s : AsciiSearcher}
    {s' : AsciiSearcher} (h : s.next_match = (none, s')) :
    match_ranges_loop (fuel + 1) s = [] := by
  simp only [match_ranges_loop]
  rw [h]

theorem reject_ranges_loop_succ_some {fuel : Nat} {s : AsciiSearcher} {r : Nat × Nat}
    {s' : AsciiSearcher} (h : s.next_reject = (some r, s')) :
    reject_ranges_loop (fuel + 1) s = r :: reject_ranges_loop fuel s' := by
  simp only [reject_ranges_loop]
  rw [h]

theorem reject_ranges_loop_succ_none {fuel : Nat} {s : AsciiSearcher}
    {s' : AsciiSearcher} (h : s.next_reject = (none, s')) :
    reject_ranges_loop (fuel + 1) s = [] := by
  simp only [reject_ranges_loop]
  rw [h]

end string

/-! Characterization of `match_indices`. -/

namespace api_consumer

open string

theorem match_indices_loop_eq (hs : List Nat) (a : Nat) :
    ∀ fuel start, hs.length - start < fuel →
      match_indices_loop fuel (AsciiSearcher.mk hs start hs.length a) =
        ((List.range' start (hs.length - start)).filter (fun i => byteAt hs i == a)).map
          (fun i => (i, range_to_self hs i (i + 1))) := by
  intro fuel
  induction fuel with
  | zero => intro start h; omega
  | succ n ih =>
    intro start hfuel
    cases hl : next_match_loop hs a start (hs.length - start) with
    | none =>
      have hm : (AsciiSearcher.mk hs start hs.length a).next_match =
          (none, AsciiSearcher.mk hs hs.length hs.length a) := by
        rw [next_match_eq, hl]
      rw [match_indices_loop_succ_none hm]
      have hnone := next_match_loop_none hl
      have hfil : (List.range' start (hs.length - start)).filter
          (fun i => byteAt hs i == a) = [] := by
        rw [List.filter_eq_nil_iff]
        intro i hi
        rw [List.mem_range'_1] at hi
        simpa using hnone i hi.1 hi.2
      rw [hfil]
      rfl
    | some r =>
      obtain ⟨b, e⟩ := r
      obtain ⟨he, hsb, hb, hbyte, hprev⟩ := next_match_loop_some hl
      subst he
      have hblt : b < hs.length := by omega
      have hm : (AsciiSearcher.mk hs start hs.length a).next_match =
          (some (b, b + 1), AsciiSearcher.mk hs (b + 1) hs.length a) := by
        rw [next_match_eq, hl]
      rw [match_indices_loop_succ_some hm]
      have hsplit : List.range' start (hs.length - start) =
          List.range' start (b - start) ++ b :: List.range' (b + 1) (hs.length - (b + 1)) := by
        have h1 : hs.length - start = (hs.length - b) + (b - start) := by omega
        rw [h1, ← List.range'_append start (b - start) (hs.length - b) 1]
        have h2 : start + 1 * (b - start) = b := by omega
        rw [h2]
        have h3 : hs.length - b = (hs.length - (b + 1)) + 1 := by omega
        rw [h3, List.range'_succ]
      rw [hsplit, List.filter_append]
      have hfilter1 : (List.range' start (b - start)).filter
          (fun i => byteAt hs i == a) = [] := by
        rw [List.filter_eq_nil_iff]
        intro i hi
        rw [List.mem_range'_1] at hi
        simpa using hprev i hi.1 (by omega)
      rw [hfilter1]
      have hfilter2 : (b :: List.range' (b + 1) (hs.length - (b + 1))).filter
          (fun i => byteAt hs i == a) =
          b :: (List.range' (b + 1) (hs.length - (b + 1))).filter
            (fun i => byteAt hs i == a) := by
        simp [List.filter_cons, hbyte]
      rw [hfilter2]
      have ihe := ih (b + 1) (by omega)
      rw [List.nil_append, List.map_cons, ← ihe]
      have hoff : offset_from_start
          (AsciiSearcher.mk hs (b + 1) hs.length a).haystack b = b := by
        simp [AsciiSearcher.haystack, offset_from_start]
      rw [hoff]

theorem match_indices_eq (hs : List Nat) (a : Nat) :
    match_indices hs a =
      ((List.range hs.length).filter (fun i => byteAt hs i == a)).map
        (fun i => (i, range_to_self hs i (i + 1))) := by
  unfold match_indices into_searcher
  rw [match_indices_loop_eq hs a (hs.length + 1) 0 (by omega)]
  rw [List.range_eq_range']
  congr 1

end api_consumer

/-! Lockstep facts relating `split` to `match_indices`. -/

namespace api_consumer

open string

theorem split_match_lockstep (hs : List Nat) (a : Nat) :
    ∀ fuel start, start ≤ hs.length → hs.length - start < fuel →
      (interleave (split_loop fuel (AsciiSearcher.mk hs start hs.length a) (some start))
        ((match_indices_loop fuel (AsciiSearcher.mk hs start hs.length a)).map
          Prod.snd)).flatten = range_to_self hs start hs.length := by
  intro fuel
  induction fuel with
  | zero => intro start _ h; omega
  | succ n ih =>
    intro start hstart hfuel
    cases hl : next_match_loop hs a start (hs.length - start) with
    | none =>
      have hm : (AsciiSearcher.mk hs start hs.length a).next_match =
          (none, AsciiSearcher.mk hs hs.length hs.length a) := by
        rw [next_match_eq, hl]
      rw [split_loop_succ_none hm, match_indices_loop_succ_none hm]
      simp [interleave, AsciiSearcher.haystack, cursor_at_back]
    | some r =>
      obtain ⟨b, e⟩ := r
      obtain ⟨he, hsb, hb, _, _⟩ := next_match_loop_some hl
      subst he
      have hblt : b < hs.length := by omega
      have hm : (AsciiSearcher.mk hs start hs.length a).next_match =
          (some (b, b + 1), AsciiSearcher.mk hs (b + 1) hs.length a) := by
        rw [next_match_eq, hl]
      rw [split_loop_succ_some hm, match_indices_loop_succ_some hm]
      have ihe := ih (b + 1) (by omega) (by omega)
      simp only [List.map_cons, interleave, List.flatten_cons]
      rw [ihe]
      rw [range_to_self_append hs (by omega : b ≤ b + 1) (by omega : b + 1 ≤ hs.length)]
      exact range_to_self_append hs (by omega) (by omega)

theorem split_length_lockstep (hs : List Nat) (a : Nat) :
    ∀ fuel start le,
      (split_loop fuel (AsciiSearcher.mk hs start hs.length a) (some le)).length =
        (match_indices_loop fuel (AsciiSearcher.mk hs start hs.length a)).length + 1 ∨
      fuel ≤ hs.length - start := by
  intro fuel
  induction fuel with
  | zero => intro start le; right; omega
  | succ n ih =>
    intro start le
    cases hl : next_match_loop hs a start (hs.length - start) with
    | none =>
      left
      have hm : (AsciiSearcher.mk hs start hs.length a).next_match =
          (none, AsciiSearcher.mk hs hs.length hs.length a) := by
        rw [next_match_eq, hl]
      rw [split_loop_succ_none hm, match_indices_loop_succ_none hm]
      rfl
    | some r =>
      obtain ⟨b, e⟩ := r
      obtain ⟨he, hsb, hb, _, _⟩ := next_match_loop_some hl
      subst he
      have hm : (AsciiSearcher.mk hs start hs.length a).next_match =
          (some (b, b + 1), AsciiSearcher.mk hs (b + 1) hs.length a) := by
        rw [next_match_eq, hl]
      rw [split_loop_succ_some hm, match_indices_loop_succ_some hm]
      rcases ih (b + 1) (b + 1) with h | h
      · left; simp [h]
      · right; omega

end api_consumer

/-! Exhausted-searcher facts (terminality). -/

namespace string

theorem next_match_stuck (hs : List Nat) (st a : Nat) :
    (AsciiSearcher.mk hs st st a).next_match = (none, AsciiSearcher.mk hs st st a) := by
  rw [next_match_eq]
  simp [next_match_loop, Nat.sub_self]

theorem next_reject_stuck (hs : List Nat) (st a : Nat) :
    (AsciiSearcher.mk hs st st a).next_reject = (none, AsciiSearcher.mk hs st st a) := by
  rw [next_reject_eq]
  simp [next_reject_loop, Nat.sub_self]

/-! Ordering facts about the emitted range sequence. -/

theorem match_ranges_loop_mem (hs : List Nat) (a : Nat) :
    ∀ fuel start stop r,
      r ∈ match_ranges_loop fuel (AsciiSearcher.mk hs start stop a) →
        start ≤ r.1 ∧ r.2 = r.1 + 1 ∧ r.1 < stop := by
  intro fuel
  induction fuel with
  | zero =>
    intro start stop r hr
    simp [match_ranges_loop] at hr
  | succ n ih =>
    intro start stop r hr
    cases hl : next_match_loop hs a start (stop - start) with
    | none =>
      have hm : (AsciiSearcher.mk hs start stop a).next_match =
          (none, AsciiSearcher.mk hs stop stop a) := by
        rw [next_match_eq, hl]
      rw [match_ranges_loop_succ_none hm] at hr
      simp at hr
    | some q =>
      obtain ⟨b, e⟩ := q
      obtain ⟨he, hsb, hb, _, _⟩ := next_match_loop_some hl
      subst he
      have hm : (AsciiSearcher.mk hs start stop a).next_match =
          (some (b, b + 1), AsciiSearcher.mk hs (b + 1) stop a) := by
        rw [next_match_eq, hl]
      rw [match_ranges_loop_succ_some hm] at hr
      rcases List.mem_cons.mp hr with hr | hr
      · subst hr
        exact ⟨hsb, rfl, by omega⟩
      · obtain ⟨g1, g2, g3⟩ := ih (b + 1) stop r hr
        exact ⟨by omega, g2, g3⟩

theorem match_ranges_loop_pairwise (hs : List Nat) (a : Nat) :
    ∀ fuel start stop,
      List.Pairwise (fun r t : Nat × Nat => r.2 ≤ t.1)
        (match_ranges_loop fuel (AsciiSearcher.mk hs start stop a)) := by
  intro fuel
  induction fuel with
  | zero => intro start stop; simp [match_ranges_loop]
  | succ n ih =>
    intro start stop
    cases hl : next_match_loop hs a start (stop - start) with
    | none =>
      have hm : (AsciiSearcher.mk hs start stop a).next_match =
          (none, AsciiSearcher.mk hs stop stop a) := by
        rw [next_match_eq, hl]
      rw [match_ranges_loop_succ_none hm]
      exact List.Pairwise.nil
    | some q =>
      obtain ⟨b, e⟩ := q
      obtain ⟨he, _, _, _, _⟩ := next_match_loop_some hl
      subst he
      have hm : (AsciiSearcher.mk hs start stop a).next_match =
          (some (b, b + 1), AsciiSearcher.mk hs (b + 1) stop a) := by
        rw [next_match_eq, hl]
      rw [match_ranges_loop_succ_some hm]
      refine List.Pairwise.cons ?_ (ih (b + 1) stop)
      intro t ht
      exact (match_ranges_loop_mem hs a n (b + 1) stop t ht).1

end string

/-! Slice-side step equations. -/

namespace slice

theorem next_match_eq_mut (hs : List Nat) (st sp a : Nat) :
    (AsciiSearcher.mk hs st sp a).next_match =
      match next_match_loop hs a st (sp - st) with
      | some (b, e) => (some (b, e), AsciiSearcher.mk hs e sp a)
      | none => (none, AsciiSearcher.mk hs sp sp a) := rfl

theorem next_reject_eq_mut (hs : List Nat) (st sp a : Nat) :
    (AsciiSearcher.mk hs st sp a).next_reject =
      match next_reject_loop hs a st (sp - st) with
      | some (b, e) => (some (b, e), AsciiSearcher.mk hs e sp a)
      | none => (none, AsciiSearcher.mk hs sp sp a) := rfl

theorem match_ranges_loop_succ_some_mut {fuel : Nat} {s : AsciiSearcher} {r : Nat × Nat}
    {s' : AsciiSearcher} (h : s.next_match = (some r, s')) :
    match_ranges_loop (fuel + 1) s = r :: match_ranges_loop fuel s' := by
  simp only [match_ranges_loop]
  rw [h]

theorem match_ranges_loop_succ_none_mut {fuel : Nat} {s : AsciiSearcher}
    {s' : AsciiSearcher} (h : s.next_match = (none, s')) :
    match_ranges_loop (fuel + 1) s = [] := by
  simp only [match_ranges_loop]
  rw [h]

theorem reject_ranges_loop_succ_some_mut {fuel : Nat} {s : AsciiSearcher} {r : Nat × Nat}
    {s' : AsciiSearcher} (h : s.next_reject = (some r, s')) :
    reject_ranges_loop (fuel + 1) s = r :: reject_ranges_loop fuel s' := by
  simp only [reject_ranges_loop]
  rw [h]

theorem reject_ranges_loop_succ_none_mut {fuel : Nat} {s : AsciiSearcher}
    {s' : AsciiSearcher} (h : s.next_reject = (none, s')) :
    reject_ranges_loop (fuel + 1) s = [] := by
  simp only [reject_ranges_loop]
  rw [h]

end slice

/-! Agreement of the string-side and slice-side searchers. -/

theorem next_match_loop_agree (mem : List Nat) (a : Nat) :
    ∀ fuel start,
      string.next_match_loop mem a start fuel = slice.next_match_loop mem a start fuel := by
  intro fuel
  induction fuel with
  | zero => intro start; rfl
  | succ n ih =>
    intro start
    simp only [string.next_match_loop, slice.next_match_loop]
    rw [ih (start + 1)]

theorem next_reject_loop_agree (mem : List Nat) (a : Nat) :
    ∀ fuel start,
      string.next_reject_loop mem a start fuel = slice.next_reject_loop mem a start fuel := by
  intro fuel
  induction fuel with
  | zero => intro start; rfl
  | succ n ih =>
    intro start
    simp only [string.next_reject_loop, slice.next_reject_loop]
    rw [ih (start + 1)]

theorem match_ranges_loop_agree (hs : List Nat) (a : Nat) :
    ∀ fuel start stop,
      string.match_ranges_loop fuel (string.AsciiSearcher.mk hs start stop a) =
        slice.match_ranges_loop fuel (slice.AsciiSearcher.mk hs start stop a) := by
  intro fuel
  induction fuel with
  | zero => intro start stop; rfl
  | succ n ih =>
    intro start stop
    cases hl : string.next_match_loop hs a start (stop - start) with
    | none =>
      have hl2 : slice.next_match_loop hs a start (stop - start) = none := by
        rw [← next_match_loop_agree]; exact hl
      have hm : (string.AsciiSearcher.mk hs start stop a).next_match =
          (none, string.AsciiSearcher.mk hs stop stop a) := by
        rw [string.next_match_eq, hl]
      have hm2 : (slice.AsciiSearcher.mk hs start stop a).next_match =
          (none, slice.AsciiSearcher.mk hs stop stop a) := by
        rw [slice.next_match_eq_mut, hl2]
      rw [string.match_ranges_loop_succ_none hm, slice.match_ranges_loop_succ_none_mut hm2]
    | some r =>
      obtain ⟨b, e⟩ := r
      have hl2 : slice.next_match_loop hs a start (stop - start) = some (b, e) := by
        rw [← next_match_loop_agree]; exact hl
      have hm : (string.AsciiSearcher.mk hs start stop a).next_match =
          (some (b, e), string.AsciiSearcher.mk hs e stop a) := by
        rw [string.next_match_eq, hl]
      have hm2 : (slice.AsciiSearcher.mk hs start stop a).next_match =
          (some (b, e), slice.AsciiSearcher.mk hs e stop a) := by
        rw [slice.next_match_eq_mut, hl2]
      rw [string.match_ranges_loop_succ_some hm, slice.match_ranges_loop_succ_some_mut hm2,
        ih e stop]

theorem reject_ranges_loop_agree (hs : List Nat) (a : Nat) :
    ∀ fuel start stop,
      string.reject_ranges_loop fuel (string.AsciiSearcher.mk hs start stop a) =
        slice.reject_ranges_loop fuel (slice.AsciiSearcher.mk hs start stop a) := by
  intro fuel
  induction fuel with
  | zero => intro start stop; rfl
  | succ n ih =>
    intro start stop
    cases hl : string.next_reject_loop hs a start (stop - start) with
    | none =>
      have hl2 : slice.next_reject_loop hs a start (stop - start) = none := by
        rw [← next_reject_loop_agree]; exact hl
      have hm : (string.AsciiSearcher.mk hs start stop a).next_reject =
          (none, string.AsciiSearcher.mk hs stop stop a) := by
        rw [string.next_reject_eq, hl]
      have hm2 : (slice.AsciiSearcher.mk hs start stop a).next_reject =
          (none, slice.AsciiSearcher.mk hs stop stop a) := by
        rw [slice.next_reject_eq_mut, hl2]
      rw [string.reject_ranges_loop_succ_none hm, slice.reject_ranges_loop_succ_none_mut hm2]
    | some r =>
      obtain ⟨b, e⟩ := r
      have hl2 : slice.next_reject_loop hs a start (stop - start) = some (b, e) := by
        rw [← next_reject_loop_agree]; exact hl
      have hm : (string.AsciiSearcher.mk hs start stop a).next_reject =
          (some (b, e), string.AsciiSearcher.mk hs e stop a) := by
        rw [string.next_reject_eq, hl]
      have hm2 : (slice.AsciiSearcher.mk hs start stop a).next_reject =
          (some (b, e), slice.AsciiSearcher.mk hs e stop a) := by
        rw [slice.next_reject_eq_mut, hl2]
      rw [string.reject_ranges_loop_succ_some hm, slice.reject_ranges_loop_succ_some_mut hm2,
        ih e stop]

/-! Remaining helpers. -/

theorem byteAt_eq_get {hs : List Nat} {i : Nat} (h : i < hs.length) :
    byteAt hs i = hs.get ⟨i, h⟩ := by
  unfold byteAt
  rw [List.get?_eq_get h]
  rfl

namespace string

theorem iterate_stuck_match (n : Nat) (t : AsciiSearcher) (h : t.start = t.stop) :
    ((fun u : AsciiSearcher => (u.next_match).2)^[n]) t = t := by
  induction n with
  | zero => rfl
  | succ m ih =>
    rw [Function.iterate_succ_apply]
    obtain ⟨hs, st, sp, a⟩ := t
    simp only at h
    subst h
    rw [show ((AsciiSearcher.mk hs st st a).next_match).2 = AsciiSearcher.mk hs st st a
      from by rw [next_match_stuck]]
    exact ih

theorem iterate_stuck_reject (n : Nat) (t : AsciiSearcher) (h : t.start = t.stop) :
    ((fun u : AsciiSearcher => (u.next_reject).2)^[n]) t = t := by
  induction n with
  | zero => rfl
  | succ m ih =>
    rw [Function.iterate_succ_apply]
    obtain ⟨hs, st, sp, a⟩ := t
    simp only at h
    subst h
    rw [show ((AsciiSearcher.mk hs st st a).next_reject).2 = AsciiSearcher.mk hs st st a
      from by rw [next_reject_stuck]]
    exact ih

end string

/-! The claims. -/

/-- C1: for every haystack `H` and every single-byte pattern, concatenating in
left-to-right order the views returned by `split(H, P)` interleaved with the
matched one-element views returned by `match_indices(H, P)` reconstructs the
original contents of `H` exactly. -/
theorem c1_split_match_indices_roundtrip (hs : List Nat) (a : Nat) :
    (interleave (api_consumer.split hs a)
      ((api_consumer.match_indices hs a).map Prod.snd)).flatten = hs := by
  have h := api_consumer.split_match_lockstep hs a (hs.length + 1) 0
    (by omega) (by omega)
  rw [string.range_to_self_full] at h
  exact h

/-- C4: `match_indices(H, P)` returns one entry per occurrence of the target
byte, in strictly increasing offset order, every returned view equals the
one-element span of `H` at its paired offset, and in particular
`match_indices("banana", byte a)` is `[(1,"a"), (3,"a"), (5,"a")]`. -/
theorem c4_match_indices_spec (hs : List Nat) (a : Nat) :
    (api_consumer.match_indices hs a).map Prod.fst
        = (List.range hs.length).filter (fun i => byteAt hs i == a)
    ∧ List.Pairwise (fun i j : Nat => i < j)
        ((api_consumer.match_indices hs a).map Prod.fst)
    ∧ (∀ p ∈ api_consumer.match_indices hs a,
        p.2 = string.range_to_self hs p.1 (p.1 + 1) ∧ p.2 = [a])
    ∧ api_consumer.match_indices bananaBytes 97 = [(1, [97]), (3, [97]), (5, [97])] := by
  have hfst : (api_consumer.match_indices hs a).map Prod.fst
      = (List.range hs.length).filter (fun i => byteAt hs i == a) := by
    rw [api_consumer.match_indices_eq, List.map_map]
    rw [show (Prod.fst ∘ fun i : Nat => (i, string.range_to_self hs i (i + 1))) = id
      from rfl, List.map_id]
  refine ⟨hfst, ?_, ?_, by decide⟩
  · rw [hfst]
    exact List.Pairwise.sublist (List.filter_sublist _) (List.pairwise_lt_range _)
  · intro p hp
    rw [api_consumer.match_indices_eq] at hp
    simp only [List.mem_map, List.mem_filter, List.mem_range] at hp
    obtain ⟨i, ⟨hilen, hia⟩, rfl⟩ := hp
    have hba : byteAt hs i = a := by simpa using hia
    refine ⟨rfl, ?_⟩
    simp only
    rw [string.range_to_self_singleton hs hilen, hba]

/-- C5: `split(H, P)` returns exactly one more view than `match_indices(H,P)`
has entries; with zero matches the single view is the whole of `H`; and on an
empty haystack `split` yields exactly one empty view while `match_indices`,
`next_match` and `next_reject` all yield nothing. -/
theorem c5_split_count (hs : List Nat) (a : Nat) :
    ((api_consumer.split hs a).length = (api_consumer.match_indices hs a).length + 1)
    ∧ (api_consumer.match_indices hs a = [] → api_consumer.split hs a = [hs])
    ∧ api_consumer.split ([] : List Nat) a = [[]]
    ∧ api_consumer.match_indices ([] : List Nat) a = []
    ∧ ((string.into_searcher a ([] : List Nat)).next_match).1 = none
    ∧ ((string.into_searcher a ([] : List Nat)).next_reject).1 = none := by
  refine ⟨?_, ?_, rfl, rfl, rfl, rfl⟩
  · rcases api_consumer.split_length_lockstep hs a (hs.length + 1) 0 0 with h | h
    · exact h
    · omega
  · intro hnil
    unfold api_consumer.match_indices at hnil
    cases hl : string.next_match_loop hs a 0 (hs.length - 0) with
    | some r =>
      obtain ⟨b, e⟩ := r
      have hm : (string.into_searcher a hs).next_match =
          (some (b, e), string.AsciiSearcher.mk hs e hs.length a) := by
        rw [show string.into_searcher a hs = string.AsciiSearcher.mk hs 0 hs.length a
          from rfl, string.next_match_eq, hl]
      rw [api_consumer.match_indices_loop_succ_some hm] at hnil
      cases hnil
    | none =>
      have hm : (string.into_searcher a hs).next_match =
          (none, string.AsciiSearcher.mk hs hs.length hs.length a) := by
        rw [show string.into_searcher a hs = string.AsciiSearcher.mk hs 0 hs.length a
          from rfl, string.next_match_eq, hl]
      unfold api_consumer.split
      rw [api_consumer.split_loop_succ_none hm]
      rw [show string.cursor_at_front (string.into_searcher a hs).haystack = 0 from rfl]
      rw [show string.cursor_at_back (string.into_searcher a hs).haystack = hs.length
        from rfl]
      show [string.range_to_self hs 0 hs.length] = [hs]
      rw [string.range_to_self_full]

/-- C5 witness: on the concrete haystack `[98]` with pattern byte `97` there
are zero matches and `split` returns the whole haystack as its single view. -/
theorem c5_split_count_witness : api_consumer.split [98] 97 = [[98]] :=
  (c5_split_count [98] 97).2.1 rfl

/-- C2 counterexample: on haystack `"bb"` (`[98, 98]`) with pattern byte
`97`, the first range yielded by `next_reject` is `(0, 1)`, yet the position
`1` just past its right end is neither the end of the haystack nor a
matching element — so the yielded run is not a maximal non-matching span
(it extends to `(0, 2)` without hitting a match). -/
theorem c2_next_reject_not_maximal :
    ((string.into_searcher 97 [98, 98]).next_reject).1 = some (0, 1)
    ∧ ¬ ((1 : Nat) = ([98, 98] : List Nat).length ∨ byteAt [98, 98] 1 = 97) := by
  decide

/-- C2 (amended): every range yielded by `next_reject` covers exactly one
element, which does not equal the target byte; the elements skipped before
it (from the previous scan position) all equal the target byte, but the
span need not be right-maximal. -/
theorem c2_next_reject_single (s : string.AsciiSearcher) (b e : Nat)
    (s' : string.AsciiSearcher) (h : s.next_reject = (some (b, e), s')) :
    e = b + 1 ∧ s.start ≤ b ∧ b < s.stop ∧ byteAt s.hs b ≠ s.ascii
    ∧ (∀ j, s.start ≤ j → j < b → byteAt s.hs j = s.ascii) := by
  obtain ⟨g1, g2, g3, g4, g5, _⟩ := string.next_reject_some h
  exact ⟨g1, g2, g3, g4, g5⟩

/-- C2 witness: the amended statement applied to the searcher for `[98, 98]`
with target byte `97` at its first yielded reject range `(0, 1)`. -/
theorem c2_next_reject_single_witness :
    (1 : Nat) = 0 + 1 ∧ (string.into_searcher 97 [98, 98]).start ≤ 0
    ∧ 0 < (string.into_searcher 97 [98, 98]).stop ∧ byteAt [98, 98] 0 ≠ 97
    ∧ (∀ j, (string.into_searcher 97 [98, 98]).start ≤ j → j < 0 →
        byteAt [98, 98] j = 97) :=
  c2_next_reject_single (string.into_searcher 97 [98, 98]) 0 1
    (string.AsciiSearcher.mk [98, 98] 1 2 97) rfl

/-- C3: on an empty haystack, `is_suffix_of` computes `haystack.len() - 1`,
a `usize` subtraction that underflows (a panic in debug builds) — it is not
the well-defined `false` the claim requires; on any non-empty haystack it
does return whether the last element equals the target byte. -/
theorem c3_is_suffix_of_empty_underflow (a : Nat) :
    string.is_suffix_of a [] = none
    ∧ slice.is_suffix_of a [] = none
    ∧ (∀ b hs, string.is_suffix_of a (hs ++ [b]) = some (b == a))
    ∧ (∀ b hs, slice.is_suffix_of a (hs ++ [b]) = some (b == a)) := by
  refine ⟨rfl, rfl, ?_, ?_⟩ <;>
  · intro b hs
    have hcs : checkedSub (hs ++ [b]).length 1 = some hs.length := by
      simp [checkedSub]
    simp only [string.is_suffix_of, slice.is_suffix_of]
    rw [hcs]
    show some ((Option.map (fun x => x == a) ((hs ++ [b]).get? hs.length)).getD false)
      = some (b == a)
    rw [List.get?_concat_length]
    rfl

/-- C6: `next_match` is terminal — once it returns none on a searcher, every
subsequent `next_match` call on that searcher also returns none; likewise
for `next_reject`. -/
theorem c6_next_none_terminal (s : string.AsciiSearcher) (n : Nat) :
    ((s.next_match).1 = none →
      ((((fun t : string.AsciiSearcher => (t.next_match).2)^[n]) (s.next_match).2).next_match).1
        = none)
    ∧ ((s.next_reject).1 = none →
      ((((fun t : string.AsciiSearcher => (t.next_reject).2)^[n]) (s.next_reject).2).next_reject).1
        = none) := by
  constructor
  · intro h
    have hm : s.next_match = (none, (s.next_match).2) := by rw [← h]
    obtain ⟨-, ht⟩ := string.next_match_none hm
    rw [ht, string.iterate_stuck_match n _ rfl]
    obtain ⟨hs, st, sp, a⟩ := s
    rw [show ({ string.AsciiSearcher.mk hs st sp a with start := sp } : string.AsciiSearcher)
      = string.AsciiSearcher.mk hs sp sp a from rfl, string.next_match_stuck]
  · intro h
    have hm : s.next_reject = (none, (s.next_reject).2) := by rw [← h]
    obtain ⟨-, ht⟩ := string.next_reject_none hm
    rw [ht, string.iterate_stuck_reject n _ rfl]
    obtain ⟨hs, st, sp, a⟩ := s
    rw [show ({ string.AsciiSearcher.mk hs st sp a with start := sp } : string.AsciiSearcher)
      = string.AsciiSearcher.mk hs sp sp a from rfl, string.next_reject_stuck]

/-- C6 witness: the terminal property at concrete exhausted searchers — a
match search over `[98]` for byte `97` and a reject search over `[97]` for
byte `97`, each iterated two further times. -/
theorem c6_next_none_terminal_witness :
    (((((fun t : string.AsciiSearcher => (t.next_match).2)^[2])
        ((string.into_searcher 97 [98]).next_match).2).next_match).1 = none)
    ∧ (((((fun t : string.AsciiSearcher => (t.next_reject).2)^[2])
        ((string.into_searcher 97 [97]).next_reject).2).next_reject).1 = none) :=
  ⟨(c6_next_none_terminal (string.into_searcher 97 [98]) 2).1 rfl,
   (c6_next_none_terminal (string.into_searcher 97 [97]) 2).2 rfl⟩

/-- C7: within one forward searcher driven by `next_match`, every emitted
range is non-empty, and the emitted ranges are pairwise ordered strictly
left-to-right and disjoint (each range ends no later than any later range
begins) and never repeated. -/
theorem c7_match_ranges_ordered (hs : List Nat) (a : Nat) :
    (∀ r ∈ string.match_ranges hs a, r.1 < r.2)
    ∧ List.Pairwise (fun r t : Nat × Nat => r.2 ≤ t.1 ∧ r ≠ t)
        (string.match_ranges hs a) := by
  have hmem : ∀ r ∈ string.match_ranges hs a, 0 ≤ r.1 ∧ r.2 = r.1 + 1 ∧ r.1 < hs.length :=
    fun r hr => string.match_ranges_loop_mem hs a (hs.length + 1) 0 hs.length r hr
  constructor
  · intro r hr
    have := (hmem r hr).2.1
    omega
  · have hpw : List.Pairwise (fun r t : Nat × Nat => r.2 ≤ t.1)
        (string.match_ranges hs a) :=
      string.match_ranges_loop_pairwise hs a (hs.length + 1) 0 hs.length
    refine hpw.imp_of_mem ?_
    intro r t hr ht hrel
    refine ⟨hrel, ?_⟩
    intro heq
    have h1 := (hmem r hr).2.1
    subst heq
    omega

/-- C8: `is_prefix_of` is true iff the haystack is non-empty and its first
element equals the target byte; the string-side and slice-side definitions
coincide (and neither mentions a searcher). -/
theorem c8_is_prefix_of_spec (hs : List Nat) (a : Nat) :
    (string.is_prefix_of a hs = true ↔ hs ≠ [] ∧ hs.head? = some a)
    ∧ slice.is_prefix_of a hs = string.is_prefix_of a hs := by
  refine ⟨?_, rfl⟩
  cases hs with
  | nil => simp [string.is_prefix_of]
  | cons b t => simp [string.is_prefix_of]

/-- C9: `is_contained_in` (the `Pattern` default: bind a fresh searcher and
test its first `next_match`) is true iff at least one element of the
haystack equals the target byte. -/
theorem c9_is_contained_in_spec (hs : List Nat) (a : Nat) :
    (string.is_contained_in a hs = true ↔ a ∈ hs)
    ∧ string.is_contained_in a hs
        = ((string.into_searcher a hs).next_match).1.isSome := by
  refine ⟨?_, rfl⟩
  unfold string.is_contained_in
  rw [show string.into_searcher a hs = string.AsciiSearcher.mk hs 0 hs.length a from rfl,
    string.next_match_eq]
  cases hl : string.next_match_loop hs a 0 (hs.length - 0) with
  | some r =>
    obtain ⟨b, e⟩ := r
    obtain ⟨-, -, hb, hbyte, -⟩ := string.next_match_loop_some hl
    have hblt : b < hs.length := by omega
    simp only [Option.isSome_some, true_iff]
    rw [byteAt_eq_get hblt] at hbyte
    rw [← hbyte]
    exact List.get_mem hs b hblt
  | none =>
    simp only [Option.isSome_none, Bool.false_eq_true, false_iff]
    intro hmem
    obtain ⟨⟨i, hi⟩, hget⟩ := List.mem_iff_get.mp hmem
    have := string.next_match_loop_none hl i (by omega) (by omega)
    rw [byteAt_eq_get hi, hget] at this
    exact this rfl

/-- C10: the immutable-string searcher and the mutable-slice searcher are
behaviorally equivalent — over identical byte contents and the same target
byte, repeated `next_match` calls produce identical sequences of
(offset-from-start, length) pairs, and likewise for `next_reject`. -/
theorem c10_string_slice_equiv (hs : List Nat) (a : Nat) :
    (string.match_ranges hs a).map
        (fun r => (string.offset_from_start (string.into_searcher a hs).haystack r.1,
          r.2 - r.1))
      = (slice.match_ranges hs a).map
        (fun r => (slice.offset_from_start (slice.into_searcher a hs).haystack r.1,
          r.2 - r.1))
    ∧ (string.reject_ranges hs a).map
        (fun r => (string.offset_from_start (string.into_searcher a hs).haystack r.1,
          r.2 - r.1))
      = (slice.reject_ranges hs a).map
        (fun r => (slice.offset_from_start (slice.into_searcher a hs).haystack r.1,
          r.2 - r.1)) := by
  have h1 : string.match_ranges hs a = slice.match_ranges hs a :=
    match_ranges_loop_agree hs a (hs.length + 1) 0 hs.length
  have h2 : string.reject_ranges hs a = slice.reject_ranges hs a :=
    reject_ranges_loop_agree hs a (hs.length + 1) 0 hs.length
  constructor
  · rw [h1]; rfl
  · rw [h2]; rfl

/-- C4 witness: the membership clause of the specification applied to the
concrete entry `(1, [97])` of `match_indices` on `"banana"` with byte `97`. -/
theorem c4_match_indices_spec_witness :
    ((1, [97]) : Nat × List Nat).2 = string.range_to_self bananaBytes 1 (1 + 1)
    ∧ ((1, [97]) : Nat × List Nat).2 = [97] :=
  (c4_match_indices_spec bananaBytes 97).2.2.1 (1, [97]) (by decide)

/-- C7 witness: the non-emptiness clause applied to the concrete range
`(1, 2)` emitted on `"banana"` with byte `97`. -/
theorem c7_match_ranges_ordered_witness : (1 : Nat) < 2 :=
  (c7_match_ranges_ordered bananaBytes 97).1 (1, 2) (by decide)
